import Mathlib

/-!
Verification of the ingest pipeline in scripts/ingest_video.py.

Strings from the Python source are modelled as List Char. Python str
methods are embedded as recursive functions on List Char. Case
insensitivity (re.I) is modelled for ASCII via Char.toLower, and the
regex \d class as ASCII digits; the source's patterns and inputs of
interest are ASCII. External collaborators (filesystem, subprocess,
HTTP) are modelled as oracle arguments; the pipeline's observable
actions are recorded as an event trace.
-/

/-- Shorthand: a Lean string literal as the List Char it denotes. -/
def cs (s : String) : List Char := s.toList

/-- ASCII whitespace, modelling Python str.strip() with no argument. -/
def isSpaceChar (c : Char) : Bool :=
  c = ' ' || c = '\t' || c = '\n' || c = '\r' || c = '\x0b' || c = '\x0c'

/-- Python str.strip(): remove leading and trailing whitespace. -/
def pyStrip (s : List Char) : List Char :=
  ((s.dropWhile isSpaceChar).reverse.dropWhile isSpaceChar).reverse

/-- The character class [A-Za-z0-9_-] of the source's regexes. -/
def idChar (c : Char) : Bool :=
  c.isAlpha || c.isDigit || c = '_' || c = '-'

/-- Match a literal pattern (given lowercase) case-insensitively at the
head of s; return the remainder of s after the pattern. -/
def stripPreCI : List Char → List Char → Option (List Char)
  | [], s => some s
  | _ :: _, [] => none
  | p :: ps, c :: rest => if c.toLower = p then stripPreCI ps rest else none

/-- One path segment: the regex piece [^/]+/ — a nonempty run of
non-slash characters followed by a slash. Returns (segment, rest). -/
def segSlash (s : List Char) : Option (List Char × List Char) :=
  let seg := s.takeWhile (fun c => !(c = '/'))
  match s.dropWhile (fun c => !(c = '/')) with
  | '/' :: r => if seg = [] then none else some (seg, r)
  | _ => none

/-- The tail of the INSTAGRAM_REEL pattern: reel/([A-Za-z0-9_-]+). -/
def reelTail (s : List Char) : Option (List Char) :=
  match stripPreCI (cs "reel/") s with
  | some rest =>
    let vid := rest.takeWhile idChar
    if vid = [] then none else some vid
  | none => none

/-- One attempt of INSTAGRAM_REEL at the head of s: after
instagram.com/ an optional captured segment, then reel/&lt;id&gt;.
Returns (optional handle, video id). -/
def igTryAt (s : List Char) : Option (Option (List Char) × List Char) :=
  match stripPreCI (cs "instagram.com/") s with
  | none => none
  | some rest =>
    match segSlash rest with
    | some (seg, rest2) =>
      match reelTail rest2 with
      | some vid => some (some seg, vid)
      | none =>
        match reelTail rest with
        | some vid => some (none, vid)
        | none => none
    | none =>
      match reelTail rest with
      | some vid => some (none, vid)
      | none => none

/-- re.search of INSTAGRAM_REEL: leftmost start position that matches. -/
def igSearch : List Char → Option (Option (List Char) × List Char)
  | [] => none
  | c :: rest =>
    match igTryAt (c :: rest) with
    | some r => some r
    | none => igSearch rest

/-- The tail of TWITTER_STATUS: status/(\d+), digits captured greedily. -/
def statusTail (s : List Char) : Option (List Char) :=
  match stripPreCI (cs "status/") s with
  | some rest =>
    let d := rest.takeWhile Char.isDigit
    if d = [] then none else some d
  | none => none

/-- After the host part of TWITTER_STATUS: (?:[^/]+/)?status/(\d+),
the optional segment tried greedily first. -/
def twAfterHost (s : List Char) : Option (List Char) :=
  match segSlash s with
  | some (_, rest2) =>
    match statusTail rest2 with
    | some d => some d
    | none => statusTail s
  | none => statusTail s

/-- One attempt of TWITTER_STATUS at the head of s. -/
def twTryAt (s : List Char) : Option (List Char) :=
  match stripPreCI (cs "twitter.com/") s with
  | some rest => twAfterHost rest
  | none =>
    match stripPreCI (cs "x.com/") s with
    | some rest => twAfterHost rest
    | none => none

/-- re.search of TWITTER_STATUS. -/
def twSearch : List Char → Option (List Char)
  | [] => none
  | c :: rest =>
    match twTryAt (c :: rest) with
    | some r => some r
    | none => twSearch rest

/-- The tail of YOUTUBE: ([A-Za-z0-9_-]{11}) — exactly 11 class chars. -/
def ytTail (s : List Char) : Option (List Char) :=
  let vid := s.take 11
  if vid.length = 11 ∧ vid.all idChar then some vid else none

/-- One attempt of YOUTUBE at the head of s:
(?:youtube.com/watch?v=|youtu.be/) then the 11-char id. -/
def ytTryAt (s : List Char) : Option (List Char) :=
  match stripPreCI (cs "youtube.com/watch?v=") s with
  | some rest => ytTail rest
  | none =>
    match stripPreCI (cs "youtu.be/") s with
    | some rest => ytTail rest
    | none => none

/-- re.search of YOUTUBE. -/
def ytSearch : List Char → Option (List Char)
  | [] => none
  | c :: rest =>
    match ytTryAt (c :: rest) with
    | some r => some r
    | none => ytSearch rest

/-- The classifier's result, source parse_url's dict
\x7bplatform, video_id, handle?\x7d. -/
structure WorkItem where
  platform : List Char
  video_id : List Char
  handle : Option (List Char)
deriving DecidableEq, Repr

/-- Source parse_url (ingest_video.py lines 44-56): strip the URL,
try the Instagram, Twitter/X and YouTube patterns in that order. -/
def parse_url (url : List Char) : Option WorkItem :=
  let u := pyStrip url
  match igSearch u with
  | some (h, vid) => some ⟨cs "instagram", vid, h⟩
  | none =>
    match twSearch u with
    | some vid => some ⟨cs "twitter", vid, none⟩
    | none =>
      match ytSearch u with
      | some vid => some ⟨cs "youtube", vid, none⟩
      | none => none

/-- Python str.replace(pat, "") stepper: remove every left-to-right,
non-overlapping occurrence of pat. Structural recursion on a fuel
bound; every step consumes at least one character, so fuel = length of
the string always suffices. -/
def removeAllGo (pat : List Char) : Nat → List Char → List Char
  | _, [] => []
  | 0, s => s
  | fuel + 1, c :: rest =>
    if pat ≠ [] ∧ pat.isPrefixOf (c :: rest) then
      removeAllGo pat fuel ((c :: rest).drop pat.length)
    else c :: removeAllGo pat fuel rest

/-- Python str.replace(pat, ""). -/
def removeAll (pat s : List Char) : List Char := removeAllGo pat s.length s

/-- Source download_audio line 63:
base = out_path.replace(".wav", "").replace(".m4a", ""). -/
def stripBase (out_path : List Char) : List Char :=
  removeAll (cs ".m4a") (removeAll (cs ".wav") out_path)

/-- Source download_audio lines 86-90: probe base.ext for each
candidate extension in order, returning the first that exists. -/
def probeLoop (fsIsFile : List Char → Bool) (base : List Char) :
    List (List Char) → Option (List Char)
  | [] => none
  | e :: rest =>
    let p := base ++ '.' :: e
    if fsIsFile p then some p else probeLoop fsIsFile base rest

/-- The source's fixed candidate-extension tuple ("m4a","webm","mp3","opus"). -/
def candidateExts : List (List Char) :=
  [cs "m4a", cs "webm", cs "mp3", cs "opus"]

/-- Source download_audio (lines 59-93). The external downloader run is
an oracle: runOk is whether subprocess.run returned exit code 0 without
raising; fsIsFile is os.path.isfile on the scratch filesystem. -/
def download_audio (out_path : List Char) (runOk : Bool)
    (fsIsFile : List Char → Bool) : Option (List Char) :=
  let base := stripBase out_path
  if runOk then probeLoop fsIsFile base candidateExts
  else none

/-- Python os.path.basename-like tail used by splitext: the part of the
path after the last slash. -/
def pyBasename (p : List Char) : List Char :=
  (p.reverse.takeWhile (fun c => !(c = '/'))).reverse

/-- Extension part of Python os.path.splitext, dot included: the suffix
of the basename from its last dot, unless every character before that
dot is itself a dot (leading dots do not start an extension). -/
def splitextExt (p : List Char) : List Char :=
  let base := pyBasename p
  let revBase := base.reverse
  let revExtCand := revBase.takeWhile (fun c => !(c = '.'))
  if revExtCand.length = revBase.length then []
  else
    let pre := base.take (base.length - revExtCand.length - 1)
    if pre.any (fun c => !(c = '.')) then '.' :: revExtCand.reverse else []

/-- Python dict.get(k, default) over an association list with string
keys and values (the shape the source's dict literals use). -/
def pyGet (d : List (List Char × List Char)) (k : List Char)
    (dflt : List Char) : List Char :=
  match d.find? (fun kv => kv.1 = k) with
  | some kv => kv.2
  | none => dflt

/-- The MIME table of _transcribe_groq (line 116), keyed without dots
exactly as in the source. -/
def mimeTable : List (List Char × List Char) :=
  [(cs "m4a", cs "audio/mp4"), (cs "mp3", cs "audio/mpeg"),
   (cs "wav", cs "audio/wav"), (cs "webm", cs "audio/webm")]

/-- Source _transcribe_groq lines 115-116: the upload content-type,
computed from os.path.splitext(audio_path)[1].lower(). -/
def groqMime (audio_path : List Char) : List Char :=
  let ext := (splitextExt audio_path).map Char.toLower
  pyGet mimeTable ext (cs "audio/mp4")

/-- The PATCH request set_ingest_status builds (lines 141-157): query
filters and the JSON body fields. -/
structure PatchRequest where
  filters : List (List Char × List Char)
  body_status : List Char
  body_error : Option (List Char)
deriving DecidableEq, Repr

/-- Source set_ingest_status (lines 130-158): eq-filters on video_id
and platform; the error message, when given, truncated to 500 chars. -/
def set_ingest_status (video_id platform status : List Char)
    (error : Option (List Char)) : PatchRequest :=
  { filters := [(cs "video_id", cs "eq." ++ video_id),
                (cs "platform", cs "eq." ++ platform)],
    body_status := status,
    body_error :=
      match error with
      | none => none
      | some e => some (if e.length > 500 then e.take 500 else e) }

/-- Equality-filter semantics of the remote store (external
collaborator, PostgREST-style): a row matches a filter list when every
filter value is the eq. form of the row's value for that field. -/
def matchesEqFilters (filters : List (List Char × List Char))
    (row : List Char → List Char) : Prop :=
  ∀ f ∈ filters, f.2 = cs "eq." ++ row f.1

/-- An HTTP response from the extraction endpoint as call_extract sees
it: status code, the JSON-parsed body when resp.json() succeeds
(objects modelled as string-to-string association lists), and the raw
body text. -/
structure ExtractResponse where
  statusCode : Nat
  jsonBody : Option (List (List Char × List Char))
  bodyText : List Char
deriving DecidableEq, Repr

/-- What call_extract does with a response: return the parsed body,
raise the RuntimeError built on lines 190-196, or let resp.json()
raise on an unparseable success body (line 197). -/
inductive ExtractCallResult where
  | ok (body : List (List Char × List Char))
  | errExtract (msg : List Char)
  | errJsonDecode
deriving DecidableEq, Repr

/-- Decimal rendering of a Nat, for Python f-string interpolation. -/
def natToStr (n : Nat) : List Char := (toString n).toList

/-- The err_msg local of call_extract (lines 191-195): the body's
error field, else its message field, else the raw text truncated to
200 characters; when the body is unparseable, the raw text truncated
to 200 characters, or "HTTP status" when it is empty. -/
def extract_err_msg (resp : ExtractResponse) : List Char :=
  match resp.jsonBody with
  | some body =>
    pyGet body (cs "error") (pyGet body (cs "message") (resp.bodyText.take 200))
  | none =>
    if resp.bodyText ≠ [] then resp.bodyText.take 200
    else cs "HTTP " ++ natToStr resp.statusCode

/-- Source call_extract response handling (lines 190-197). -/
def call_extract (resp : ExtractResponse) : ExtractCallResult :=
  if resp.statusCode ≥ 400 then
    .errExtract (cs "Extract " ++ natToStr resp.statusCode ++ cs ": " ++ extract_err_msg resp)
  else
    match resp.jsonBody with
    | some body => .ok body
    | none => .errJsonDecode

/-- Global transcription configuration (main/transcribe): whether
GROQ_API_KEY is set and whether faster_whisper imports. -/
structure Config where
  hasGroqKey : Bool
  hasFasterWhisper : Bool
deriving DecidableEq, Repr

/-- One batch item as main builds it: url plus the parse_url fields. -/
structure BatchItem where
  url : List Char
  platform : List Char
  video_id : List Char
deriving DecidableEq, Repr

/-- Outcome of the call_extract invocation as the orchestrator sees it:
a normal return, or a raised exception with message str(e). -/
inductive ExtractOutcome where
  | success
  | raised (msg : List Char)
deriving DecidableEq, Repr

/-- Per-item oracle for the external collaborators: the download_audio
result, the transcript each strategy would yield (none = the strategy
raised), and the extraction call's outcome. -/
structure ItemOracle where
  downloadResult : Option (List Char)
  groqResult : Option (List Char)
  localResult : Option (List Char)
  extractOutcome : ExtractOutcome
deriving DecidableEq, Repr

/-- Source transcribe (lines 96-109) as the orchestrator experiences
it: the hosted strategy when GROQ_API_KEY is set, else the local model,
else sys.exit(1). A strategy yields a transcript or raises. -/
inductive TranscribeStep where
  | text (t : List Char)
  | raised
  | fatalExit
deriving DecidableEq, Repr

/-- Strategy selection and outcome of one transcribe call. -/
def transcribeStep (cfg : Config) (o : ItemOracle) : TranscribeStep :=
  if cfg.hasGroqKey then
    match o.groqResult with
    | some t => .text t
    | none => .raised
  else if cfg.hasFasterWhisper then
    match o.localResult with
    | some t => .text t
    | none => .raised
  else .fatalExit

/-- Observable actions of one pipeline run, in order: status-write
attempts (the arguments passed to set_ingest_status), downloader
invocations, transcribe calls, and extraction submissions. -/
inductive Event where
  | statusWrite (video_id platform status : List Char) (error : Option (List Char))
  | downloadCall (url : List Char)
  | transcribeCall (path : List Char)
  | extractCall (video_id platform transcript : List Char)
      (reel_url canonical_url : Option (List Char))
deriving DecidableEq, Repr

/-- How one item's processing ends: the loop body finishes (continue),
sys.exit(1) fires inside transcribe, or an exception escapes the loop. -/
inductive ItemOutcome where
  | completed
  | fatalConfig
  | uncaughtError
deriving DecidableEq, Repr

/-- The failed-status write of main (lines 299, 308, 332). -/
def failWrite (it : BatchItem) (msg : List Char) : Event :=
  .statusWrite it.video_id it.platform (cs "failed") (some msg)

/-- Source main's per-item loop body (lines 278-334), non-dry-run:
set transcribing, download, transcribe, check emptiness, build the
reel/canonical urls, extract, and record failures per step. -/
def processItem (cfg : Config) (it : BatchItem) (o : ItemOracle) :
    List Event × ItemOutcome :=
  let ev0 : List Event :=
    [.statusWrite it.video_id it.platform (cs "transcribing") none,
     .downloadCall it.url]
  match o.downloadResult with
  | none => (ev0 ++ [failWrite it (cs "Download failed")], .completed)
  | some path =>
    let ev1 := ev0 ++ [.transcribeCall path]
    match transcribeStep cfg o with
    | .fatalExit => (ev1, .fatalConfig)
    | .raised => (ev1, .uncaughtError)
    | .text t =>
      if t = [] then (ev1 ++ [failWrite it (cs "Empty transcript")], .completed)
      else
        let reel_url := if it.platform = cs "instagram" then some it.url else none
        let canonical_url := if it.platform = cs "instagram" then none else some it.url
        let ev2 := ev1 ++ [.extractCall it.video_id it.platform t reel_url canonical_url]
        match o.extractOutcome with
        | .success => (ev2, .completed)
        | .raised msg => (ev2 ++ [failWrite it msg], .completed)

/-- How the whole batch run ends: the loop finishes, sys.exit(1)
terminates the process, or an uncaught exception crashes it. -/
inductive BatchOutcome where
  | finished
  | exitedFatal
  | crashed
deriving DecidableEq, Repr

/-- Source main's batch loop over urls_to_process: items strictly in
order; a completed item lets the loop advance, the other outcomes end
the run. -/
def runBatch (cfg : Config) : List (BatchItem × ItemOracle) → List Event × BatchOutcome
  | [] => ([], .finished)
  | (it, o) :: rest =>
    match processItem cfg it o with
    | (evs, .completed) =>
      let r := runBatch cfg rest
      (evs ++ r.1, r.2)
    | (evs, .fatalConfig) => (evs, .exitedFatal)
    | (evs, .uncaughtError) => (evs, .crashed)

/-- The (status, error) arguments of the status-write events of a
trace, in order. -/
def statusWrites : List Event → List (List Char × Option (List Char))
  | [] => []
  | e :: r =>
    match e with
    | .statusWrite _ _ st err => (st, err) :: statusWrites r
    | _ => statusWrites r

/-- The last status written in a trace. -/
def lastStatus (evs : List Event) : Option (List Char × Option (List Char)) :=
  (statusWrites evs).reverse.head?

theorem cs_unfold (s : String) : cs s = s.toList := rfl

theorem splitextExt_shape (p : List Char) :
    splitextExt p = [] ∨ ∃ r, splitextExt p = '.' :: r := by
  simp only [splitextExt]
  split
  · exact Or.inl rfl
  · split
    · exact Or.inr ⟨_, rfl⟩
    · exact Or.inl rfl

theorem pyGet_mime_default (ext : List Char)
    (h : ext = [] ∨ ∃ r, ext = '.' :: r) :
    pyGet mimeTable ext (cs "audio/mp4") = cs "audio/mp4" := by
  have hfind : List.find? (fun kv => kv.1 = ext) mimeTable = none := by
    rw [List.find?_eq_none]
    intro x hx
    rcases h with h | ⟨r, h⟩ <;> subst h <;> fin_cases hx <;> simp [cs]
  unfold pyGet
  rw [hfind]

/-- C4: in the hosted-API transcription strategy the content-type is
NOT inferred from the extension: os.path.splitext keeps the leading
dot, the MIME table is keyed without dots, so the lookup always takes
the generic fallback audio/mp4 — for audio.mp3 the upload content-type
is audio/mp4, not the audio/mpeg the claim requires. -/
theorem groq_mime_always_generic :
    (∀ p : List Char, groqMime p = cs "audio/mp4") ∧
    groqMime (cs "audio.mp3") = cs "audio/mp4" := by
  have hall : ∀ p : List Char, groqMime p = cs "audio/mp4" := by
    intro p
    unfold groqMime
    apply pyGet_mime_default
    rcases splitextExt_shape p with h | ⟨r, h⟩
    · left; simp [h]
    · right; exact ⟨r.map Char.toLower, by simp [h]⟩
  exact ⟨hall, hall _⟩

/-- C8: after a successful downloader invocation the acquirer probes
base.m4a, base.webm, base.mp3, base.opus in that fixed order and
returns the first that exists on disk; when none of the four exists it
returns no path. -/
theorem download_audio_probe_order (out_path : List Char)
    (fsIsFile : List Char → Bool) :
    (fsIsFile (stripBase out_path ++ '.' :: cs "m4a") = true →
      download_audio out_path true fsIsFile =
        some (stripBase out_path ++ '.' :: cs "m4a")) ∧
    (fsIsFile (stripBase out_path ++ '.' :: cs "m4a") = false →
     fsIsFile (stripBase out_path ++ '.' :: cs "webm") = true →
      download_audio out_path true fsIsFile =
        some (stripBase out_path ++ '.' :: cs "webm")) ∧
    (fsIsFile (stripBase out_path ++ '.' :: cs "m4a") = false →
     fsIsFile (stripBase out_path ++ '.' :: cs "webm") = false →
     fsIsFile (stripBase out_path ++ '.' :: cs "mp3") = true →
      download_audio out_path true fsIsFile =
        some (stripBase out_path ++ '.' :: cs "mp3")) ∧
    (fsIsFile (stripBase out_path ++ '.' :: cs "m4a") = false →
     fsIsFile (stripBase out_path ++ '.' :: cs "webm") = false →
     fsIsFile (stripBase out_path ++ '.' :: cs "mp3") = false →
     fsIsFile (stripBase out_path ++ '.' :: cs "opus") = true →
      download_audio out_path true fsIsFile =
        some (stripBase out_path ++ '.' :: cs "opus")) ∧
    (fsIsFile (stripBase out_path ++ '.' :: cs "m4a") = false →
     fsIsFile (stripBase out_path ++ '.' :: cs "webm") = false →
     fsIsFile (stripBase out_path ++ '.' :: cs "mp3") = false →
     fsIsFile (stripBase out_path ++ '.' :: cs "opus") = false →
      download_audio out_path true fsIsFile = none) := by
  refine ⟨?_, ?_, ?_, ?_, ?_⟩ <;>
    intros <;>
    simp_all [download_audio, candidateExts, probeLoop]

/-- C8 witness: with only base.webm on disk the probe skips m4a and
returns base.webm. -/
theorem download_audio_probe_order_witness :
    download_audio (cs "audio") true (fun p => p = cs "audio.webm") =
      some (cs "audio" ++ '.' :: cs "webm") ∧
    download_audio (cs "audio") true (fun _ => false) = none := by
  constructor
  · exact (download_audio_probe_order (cs "audio")
      (fun p => p = cs "audio.webm")).2.1 (by decide) (by decide)
  · exact (download_audio_probe_order (cs "audio")
      (fun _ => false)).2.2.2.2 rfl rfl rfl rfl

theorem isPrefixOf_append : ∀ (p s : List Char), p.isPrefixOf s = true →
    ∃ t, s = p ++ t := by
  intro p
  induction p with
  | nil => intro s _; exact ⟨s, rfl⟩
  | cons a as ih =>
    intro s hp
    cases s with
    | nil => simp [List.isPrefixOf] at hp
    | cons b bs =>
      simp only [List.isPrefixOf, Bool.and_eq_true, beq_iff_eq] at hp
      obtain ⟨t, ht⟩ := ih bs hp.2
      exact ⟨t, by simp [hp.1, ht]⟩

theorem removeAllGo_no_occ (pat : List Char) :
    ∀ (fuel : Nat) (s : List Char), (¬ ∃ u v, s = u ++ pat ++ v) →
      removeAllGo pat fuel s = s := by
  intro fuel
  induction fuel with
  | zero => intro s _; cases s <;> rfl
  | succ n ih =>
    intro s h
    cases s with
    | nil => rfl
    | cons c rest =>
      rw [removeAllGo]
      have hnp : ¬ (pat ≠ [] ∧ pat.isPrefixOf (c :: rest)) := by
        rintro ⟨_, hpre⟩
        obtain ⟨t, ht⟩ := isPrefixOf_append pat (c :: rest) hpre
        exact h ⟨[], t, by simp [ht]⟩
      rw [if_neg hnp]
      congr 1
      apply ih
      rintro ⟨u, v, huv⟩
      exact h ⟨c :: u, v, by simp [huv]⟩

theorem removeAll_no_occ (pat s : List Char)
    (h : ¬ ∃ u v, s = u ++ pat ++ v) : removeAll pat s = s :=
  removeAllGo_no_occ pat s.length s h

theorem probeLoop_mem (fsIsFile : List Char → Bool) (base : List Char) :
    ∀ (exts : List (List Char)) (p : List Char),
      probeLoop fsIsFile base exts = some p →
      ∃ e ∈ exts, p = base ++ '.' :: e := by
  intro exts
  induction exts with
  | nil => intro p h; simp [probeLoop] at h
  | cons e rest ih =>
    intro p h
    simp only [probeLoop] at h
    by_cases hf : fsIsFile (base ++ '.' :: e) = true
    · rw [if_pos hf] at h
      exact ⟨e, List.mem_cons_self e rest, (Option.some.inj h).symm⟩
    · rw [if_neg hf] at h
      obtain ⟨e2, he2, hp⟩ := ih p h
      exact ⟨e2, List.mem_cons_of_mem e he2, hp⟩

/-- Decidable contiguous-substring occurrence check. -/
def hasOcc (pat : List Char) : List Char → Bool
  | [] => pat.isPrefixOf []
  | c :: rest => pat.isPrefixOf (c :: rest) || hasOcc pat rest

theorem isPrefixOf_self_append : ∀ (p t : List Char), p.isPrefixOf (p ++ t) = true := by
  intro p
  induction p with
  | nil => intro t; cases t <;> rfl
  | cons a as ih => intro t; simp [List.isPrefixOf, ih]

theorem hasOcc_iff (pat : List Char) :
    ∀ s : List Char, hasOcc pat s = true ↔ ∃ u v, s = u ++ pat ++ v := by
  intro s
  induction s with
  | nil =>
    simp only [hasOcc]
    constructor
    · intro h
      obtain ⟨t, ht⟩ := isPrefixOf_append pat [] h
      exact ⟨[], t, by simp [ht]⟩
    · rintro ⟨u, v, huv⟩
      have hu : u = [] := by
        cases u with
        | nil => rfl
        | cons a as => simp at huv
      subst hu
      have hp : pat = [] := by
        cases pat with
        | nil => rfl
        | cons a as => simp at huv
      simp [hp, List.isPrefixOf]
  | cons c rest ih =>
    simp only [hasOcc, Bool.or_eq_true]
    constructor
    · rintro (h | h)
      · obtain ⟨t, ht⟩ := isPrefixOf_append pat (c :: rest) h
        exact ⟨[], t, by simp [ht]⟩
      · obtain ⟨u, v, huv⟩ := ih.mp h
        exact ⟨c :: u, v, by simp [huv]⟩
    · rintro ⟨u, v, huv⟩
      cases u with
      | nil =>
        left
        simp only [List.nil_append] at huv
        rw [huv]
        exact isPrefixOf_self_append pat v
      | cons a as =>
        right
        simp only [List.cons_append, List.cons.injEq] at huv
        exact ih.mpr ⟨as, v, huv.2⟩

theorem removeAll_no_occ_bool (pat s : List Char)
    (h : hasOcc pat s = false) : removeAll pat s = s := by
  apply removeAll_no_occ
  intro hex
  rw [← hasOcc_iff] at hex
  rw [h] at hex
  exact Bool.false_ne_true hex

/-- C10: the output-template base is the destination path with every
occurrence of ".wav" and ".m4a" removed wherever it appears (the
sequential replace-all of line 63), not only as a trailing extension;
on success the returned path is that stripped base plus a dot plus the
first existing candidate extension, so it can differ from the caller's
path when ".wav" or ".m4a" occurs mid-path. -/
theorem download_audio_strips_base_everywhere :
    (∀ (out_path : List Char) (fsIsFile : List Char → Bool) (p : List Char),
      download_audio out_path true fsIsFile = some p →
      ∃ e ∈ candidateExts, p = stripBase out_path ++ '.' :: e) ∧
    (∀ pat s : List Char, hasOcc pat s = true ↔ ∃ u v, s = u ++ pat ++ v) ∧
    (∀ s : List Char, hasOcc (cs ".wav") s = false →
      hasOcc (cs ".m4a") s = false → stripBase s = s) ∧
    stripBase (cs "/tmp/x.wav_dir/audio.m4a") = cs "/tmp/x_dir/audio" ∧
    stripBase (cs "clip.m4a.m4a") = cs "clip" := by
  refine ⟨?_, fun pat s => hasOcc_iff pat s, ?_, by decide, by decide⟩
  · intro out_path fsIsFile p h
    simp only [download_audio, if_true] at h
    exact probeLoop_mem fsIsFile (stripBase out_path) candidateExts p h
  · intro s h1 h2
    unfold stripBase
    rw [removeAll_no_occ_bool (cs ".wav") s h1]
    exact removeAll_no_occ_bool (cs ".m4a") s h2

/-- C10 witness: a path with ".wav" mid-directory and a trailing
".m4a" is stripped in both places before probing, and a path without
the markers is left unchanged. -/
theorem download_audio_strips_base_everywhere_witness :
    (∃ e ∈ candidateExts,
      cs "/tmp/x_dir/audio.m4a" = stripBase (cs "/tmp/x.wav_dir/audio.m4a") ++ '.' :: e) ∧
    stripBase (cs "no-markers/audio") = cs "no-markers/audio" := by
  constructor
  · exact download_audio_strips_base_everywhere.1 (cs "/tmp/x.wav_dir/audio.m4a")
      (fun _ => true) (cs "/tmp/x_dir/audio.m4a") (by decide)
  · exact download_audio_strips_base_everywhere.2.2.1 (cs "no-markers/audio")
      (by decide) (by decide)

/-- C7: a status update always filters on exact video_id AND platform
equality (and nothing else), and a given error message is written
truncated to at most 500 characters, unchanged when already within
500. -/
theorem set_ingest_status_contract
    (video_id platform status : List Char) (row : List Char → List Char) :
    ((set_ingest_status video_id platform status none).body_error = none) ∧
    (∀ e : List Char,
      (set_ingest_status video_id platform status (some e)).body_error
        = some (e.take 500)) ∧
    (∀ e : List Char, (e.take 500).length ≤ 500) ∧
    (∀ e : List Char, e.length ≤ 500 → e.take 500 = e) ∧
    (∀ err : Option (List Char),
      matchesEqFilters (set_ingest_status video_id platform status err).filters row ↔
        row (cs "video_id") = video_id ∧ row (cs "platform") = platform) := by
  refine ⟨rfl, ?_, ?_, ?_, ?_⟩
  · intro e
    simp only [set_ingest_status]
    by_cases h : e.length > 500
    · rw [if_pos h]
    · rw [if_neg h, List.take_of_length_le (Nat.le_of_not_lt h)]
  · intro e
    rw [List.length_take]
    exact min_le_left _ _
  · intro e h
    exact List.take_of_length_le h
  · intro err
    unfold matchesEqFilters set_ingest_status
    constructor
    · intro h
      have h1 := h (cs "video_id", cs "eq." ++ video_id) (by simp)
      have h2 := h (cs "platform", cs "eq." ++ platform) (by simp)
      simp only at h1 h2
      exact ⟨((List.append_right_inj _).mp h1).symm,
             ((List.append_right_inj _).mp h2).symm⟩
    · rintro ⟨h1, h2⟩ f hf
      simp only [List.mem_cons, List.not_mem_nil, or_false] at hf
      rcases hf with hf | hf <;> subst hf <;> simp [h1, h2]

/-- C7 witness: a 4-character message is written unchanged and a row
carrying exactly the filtered video_id and platform matches. -/
theorem set_ingest_status_contract_witness :
    (set_ingest_status (cs "abc") (cs "youtube") (cs "failed")
        (some (cs "oops"))).body_error = some (cs "oops") ∧
    matchesEqFilters
      (set_ingest_status (cs "abc") (cs "youtube") (cs "failed") none).filters
      (fun f => if f = cs "video_id" then cs "abc" else cs "youtube") := by
  constructor
  · have h := (set_ingest_status_contract (cs "abc") (cs "youtube") (cs "failed")
      (fun f => if f = cs "video_id" then cs "abc" else cs "youtube")).2.1 (cs "oops")
    rw [h]
    decide
  · exact ((set_ingest_status_contract (cs "abc") (cs "youtube") (cs "failed")
      (fun f => if f = cs "video_id" then cs "abc" else cs "youtube")).2.2.2.2
        none).mpr ⟨by decide, by decide⟩

/-- C5: on HTTP status at least 400 the client raises an error whose
message contains the status code and an error text chosen by
preferring the body's error field, then its message field, then the
raw body text truncated to 200 characters; on status below 400 it
returns the parsed structured body. -/
theorem call_extract_error_contract (resp : ExtractResponse) :
    (resp.statusCode ≥ 400 →
      ∃ em, call_extract resp =
          .errExtract (cs "Extract " ++ natToStr resp.statusCode ++ cs ": " ++ em) ∧
        (∃ a b, cs "Extract " ++ natToStr resp.statusCode ++ cs ": " ++ em
            = a ++ natToStr resp.statusCode ++ b) ∧
        (∃ a b, cs "Extract " ++ natToStr resp.statusCode ++ cs ": " ++ em
            = a ++ em ++ b) ∧
        (∀ body, resp.jsonBody = some body →
          em = pyGet body (cs "error")
                 (pyGet body (cs "message") (resp.bodyText.take 200))) ∧
        (∀ body v, resp.jsonBody = some body →
          body.find? (fun kv => kv.1 = cs "error") = some v → em = v.2) ∧
        (∀ body, resp.jsonBody = some body →
          body.find? (fun kv => kv.1 = cs "error") = none →
          body.find? (fun kv => kv.1 = cs "message") = none →
          em = resp.bodyText.take 200)) ∧
    (resp.statusCode < 400 → ∀ body, resp.jsonBody = some body →
      call_extract resp = .ok body) := by
  constructor
  · intro h400
    refine ⟨extract_err_msg resp, ?_, ?_, ?_, ?_, ?_, ?_⟩
    · unfold call_extract
      rw [if_pos h400]
    · exact ⟨cs "Extract ", cs ": " ++ extract_err_msg resp, by simp⟩
    · exact ⟨cs "Extract " ++ natToStr resp.statusCode ++ cs ": ", [], by simp⟩
    · intro body hb
      unfold extract_err_msg
      rw [hb]
    · intro body v hb hf
      unfold extract_err_msg
      rw [hb]
      simp only [pyGet, hf]
    · intro body hb hf1 hf2
      unfold extract_err_msg
      rw [hb]
      simp only [pyGet, hf1, hf2]
  · intro h400 body hb
    unfold call_extract
    rw [if_neg (not_le.mpr h400), hb]

/-- C5 witness: a 422 response with body error field "bad transcript"
raises a message containing "422" and "bad transcript". -/
theorem call_extract_error_contract_witness :
    call_extract ⟨422, some [(cs "error", cs "bad transcript")], cs "raw"⟩
      = .errExtract (cs "Extract 422: bad transcript") ∧
    (∃ a b, cs "Extract 422: bad transcript" = a ++ cs "422" ++ b) ∧
    (∃ a b, cs "Extract 422: bad transcript" = a ++ cs "bad transcript" ++ b) := by
  obtain ⟨em, heq, -, -, hbody, -, -⟩ :=
    (call_extract_error_contract
      ⟨422, some [(cs "error", cs "bad transcript")], cs "raw"⟩).1 (by decide)
  have hem : em = cs "bad transcript" := by
    have h := hbody [(cs "error", cs "bad transcript")] rfl
    rw [h]
    decide
  subst hem
  refine ⟨?_, ⟨cs "Extract ", cs ": bad transcript", by decide⟩,
         ⟨cs "Extract 422: ", [], by decide⟩⟩
  rw [heq]
  decide

theorem runBatch_cons_completed (cfg : Config) (it : BatchItem) (o : ItemOracle)
    (rest : List (BatchItem × ItemOracle))
    (h : (processItem cfg it o).2 = ItemOutcome.completed) :
    runBatch cfg ((it, o) :: rest) =
      ((processItem cfg it o).1 ++ (runBatch cfg rest).1, (runBatch cfg rest).2) := by
  rcases hpi : processItem cfg it o with ⟨evs, out⟩
  rw [hpi] at h
  have hout : out = ItemOutcome.completed := h
  subst hout
  simp [runBatch, hpi]

/-- C9: every payload the orchestrator submits to the extraction
endpoint sets exactly one of reel_url and canonical_url — reel_url
equal to the item's URL for the instagram platform, canonical_url
equal to the item's URL for every other platform. -/
theorem extract_payload_url_exclusivity
    (cfg : Config) (it : BatchItem) (o : ItemOracle)
    (v pl tr : List Char) (ru cu : Option (List Char))
    (hmem : Event.extractCall v pl tr ru cu ∈ (processItem cfg it o).1) :
    ((ru = none ∧ cu = some it.url) ∨ (cu = none ∧ ru = some it.url)) ∧
    (it.platform = cs "instagram" → ru = some it.url ∧ cu = none) ∧
    (it.platform ≠ cs "instagram" → cu = some it.url ∧ ru = none) := by
  simp only [processItem] at hmem
  rcases hdl : o.downloadResult with - | path
  · simp only [hdl, failWrite] at hmem
    simp at hmem
  · simp only [hdl] at hmem
    rcases hts : transcribeStep cfg o with t | - | -
    · simp only [hts] at hmem
      by_cases ht0 : t = []
      · rw [if_pos ht0] at hmem
        simp [failWrite] at hmem
      · rw [if_neg ht0] at hmem
        have hfields :
            ru = (if it.platform = cs "instagram" then some it.url else none) ∧
            cu = (if it.platform = cs "instagram" then none else some it.url) := by
          rcases heo : o.extractOutcome with - | msg <;>
          · simp only [heo, failWrite] at hmem
            simp at hmem
            exact ⟨hmem.2.2.2.1, hmem.2.2.2.2⟩
        by_cases hpl : it.platform = cs "instagram"
        · rw [if_pos hpl] at hfields
          rw [if_pos hpl] at hfields
          refine ⟨Or.inr ⟨hfields.2, hfields.1⟩, fun _ => ⟨hfields.1, hfields.2⟩,
                  fun hn => absurd hpl hn⟩
        · rw [if_neg hpl] at hfields
          rw [if_neg hpl] at hfields
          refine ⟨Or.inl ⟨hfields.1, hfields.2⟩, fun hy => absurd hy hpl,
                  fun _ => ⟨hfields.2, hfields.1⟩⟩
    · simp only [hts] at hmem
      simp at hmem
    · simp only [hts] at hmem
      simp at hmem

/-- C9 witness: the payload of a concrete instagram item carries
reel_url = the item URL and no canonical_url. -/
theorem extract_payload_url_exclusivity_witness :
    ((none : Option (List Char)) = none ∧
      some (cs "https://instagram.com/u/reel/AB") = some (cs "https://instagram.com/u/reel/AB")) ∨
    ((none : Option (List Char)) = none ∧
      some (cs "https://instagram.com/u/reel/AB") = some (cs "https://instagram.com/u/reel/AB")) := by
  have h := extract_payload_url_exclusivity ⟨true, true⟩
    ⟨cs "https://instagram.com/u/reel/AB", cs "instagram", cs "AB"⟩
    ⟨some (cs "/tmp/audio.m4a"), some (cs "hello"), some (cs "hello"), ExtractOutcome.success⟩
    (cs "AB") (cs "instagram") (cs "hello")
    (some (cs "https://instagram.com/u/reel/AB")) none (by decide)
  rcases h.1 with hc | hc
  · exact Or.inl ⟨hc.2.symm ▸ rfl, rfl⟩
  · exact Or.inr ⟨hc.1, rfl⟩

theorem processItem_download_fail (cfg : Config) (it : BatchItem) (o : ItemOracle)
    (h : o.downloadResult = none) :
    processItem cfg it o =
      ([Event.statusWrite it.video_id it.platform (cs "transcribing") none,
        Event.downloadCall it.url, failWrite it (cs "Download failed")],
       ItemOutcome.completed) := by
  simp [processItem, h]

theorem processItem_empty_transcript (cfg : Config) (it : BatchItem) (o : ItemOracle)
    (path : List Char) (hd : o.downloadResult = some path)
    (ht : transcribeStep cfg o = TranscribeStep.text []) :
    processItem cfg it o =
      ([Event.statusWrite it.video_id it.platform (cs "transcribing") none,
        Event.downloadCall it.url, Event.transcribeCall path,
        failWrite it (cs "Empty transcript")],
       ItemOutcome.completed) := by
  simp [processItem, hd, ht]

theorem processItem_extract_raised (cfg : Config) (it : BatchItem) (o : ItemOracle)
    (path t msg : List Char) (hd : o.downloadResult = some path)
    (ht : transcribeStep cfg o = TranscribeStep.text t) (ht0 : t ≠ [])
    (he : o.extractOutcome = ExtractOutcome.raised msg) :
    processItem cfg it o =
      ([Event.statusWrite it.video_id it.platform (cs "transcribing") none,
        Event.downloadCall it.url, Event.transcribeCall path,
        Event.extractCall it.video_id it.platform t
          (if it.platform = cs "instagram" then some it.url else none)
          (if it.platform = cs "instagram" then none else some it.url),
        failWrite it msg],
       ItemOutcome.completed) := by
  simp [processItem, hd, ht, ht0, he]

theorem processItem_success (cfg : Config) (it : BatchItem) (o : ItemOracle)
    (path t : List Char) (hd : o.downloadResult = some path)
    (ht : transcribeStep cfg o = TranscribeStep.text t) (ht0 : t ≠ [])
    (he : o.extractOutcome = ExtractOutcome.success) :
    processItem cfg it o =
      ([Event.statusWrite it.video_id it.platform (cs "transcribing") none,
        Event.downloadCall it.url, Event.transcribeCall path,
        Event.extractCall it.video_id it.platform t
          (if it.platform = cs "instagram" then some it.url else none)
          (if it.platform = cs "instagram" then none else some it.url)],
       ItemOutcome.completed) := by
  simp [processItem, hd, ht, ht0, he]

theorem processItem_completed_of_text (cfg : Config) (it : BatchItem) (o : ItemOracle)
    (t : List Char) (ht : transcribeStep cfg o = TranscribeStep.text t) :
    (processItem cfg it o).2 = ItemOutcome.completed := by
  rcases hd : o.downloadResult with - | path
  · rw [processItem_download_fail cfg it o hd]
  · by_cases ht0 : t = []
    · subst ht0
      rw [processItem_empty_transcript cfg it o path hd ht]
    · rcases he : o.extractOutcome with - | msg
      · rw [processItem_success cfg it o path t hd ht ht0 he]
      · rw [processItem_extract_raised cfg it o path t msg hd ht ht0 he]

/-- C1 counterexample: with the hosted strategy selected, a raised
transcription error (e.g. a non-success HTTP status from the hosted
API) is not caught by the per-item loop: the batch crashes, the
failing item never gets a failed status, and the next item is never
processed — refuting the claim that any transcription failure is
isolated to its item. -/
theorem transcription_raise_aborts_batch_cex :
    (runBatch ⟨true, true⟩
      [(⟨cs "https://youtu.be/abcdefghijk", cs "youtube", cs "abcdefghijk"⟩,
        ⟨some (cs "/tmp/audio.m4a"), none, some (cs "t"), ExtractOutcome.success⟩),
       (⟨cs "https://x.com/status/123", cs "twitter", cs "123"⟩,
        ⟨some (cs "/tmp/audio2.m4a"), some (cs "t2"), some (cs "t2"),
         ExtractOutcome.success⟩)]).2 = BatchOutcome.crashed ∧
    statusWrites (runBatch ⟨true, true⟩
      [(⟨cs "https://youtu.be/abcdefghijk", cs "youtube", cs "abcdefghijk"⟩,
        ⟨some (cs "/tmp/audio.m4a"), none, some (cs "t"), ExtractOutcome.success⟩),
       (⟨cs "https://x.com/status/123", cs "twitter", cs "123"⟩,
        ⟨some (cs "/tmp/audio2.m4a"), some (cs "t2"), some (cs "t2"),
         ExtractOutcome.success⟩)]).1 = [(cs "transcribing", none)] ∧
    Event.downloadCall (cs "https://x.com/status/123") ∉ (runBatch ⟨true, true⟩
      [(⟨cs "https://youtu.be/abcdefghijk", cs "youtube", cs "abcdefghijk"⟩,
        ⟨some (cs "/tmp/audio.m4a"), none, some (cs "t"), ExtractOutcome.success⟩),
       (⟨cs "https://x.com/status/123", cs "twitter", cs "123"⟩,
        ⟨some (cs "/tmp/audio2.m4a"), some (cs "t2"), some (cs "t2"),
         ExtractOutcome.success⟩)]).1 := by
  exact ⟨by decide, by decide, by decide⟩

/-- C1 amended: provided the selected transcription strategy returns a
transcript (does not raise), every per-step failure is isolated: a
download failure, an empty transcript or a raised extraction error
each leave the item completed with a final failed status carrying the
distinguishing message, and the batch continues with the remaining
items. -/
theorem per_item_failure_isolation (cfg : Config) (it : BatchItem)
    (o : ItemOracle) (rest : List (BatchItem × ItemOracle)) (t : List Char)
    (ht : transcribeStep cfg o = TranscribeStep.text t) :
    (runBatch cfg ((it, o) :: rest)).1 =
      (processItem cfg it o).1 ++ (runBatch cfg rest).1 ∧
    (runBatch cfg ((it, o) :: rest)).2 = (runBatch cfg rest).2 ∧
    (o.downloadResult = none →
      lastStatus (processItem cfg it o).1 =
        some (cs "failed", some (cs "Download failed"))) ∧
    (o.downloadResult ≠ none → t = [] →
      lastStatus (processItem cfg it o).1 =
        some (cs "failed", some (cs "Empty transcript"))) ∧
    (∀ msg, o.downloadResult ≠ none → t ≠ [] →
      o.extractOutcome = ExtractOutcome.raised msg →
      lastStatus (processItem cfg it o).1 = some (cs "failed", some msg)) := by
  have hrb := runBatch_cons_completed cfg it o rest
    (processItem_completed_of_text cfg it o t ht)
  refine ⟨by rw [hrb], by rw [hrb], ?_, ?_, ?_⟩
  · intro hd
    rw [processItem_download_fail cfg it o hd]
    simp [lastStatus, statusWrites, failWrite]
  · intro hd ht0
    rcases hdp : o.downloadResult with - | path
    · exact absurd hdp hd
    · subst ht0
      rw [processItem_empty_transcript cfg it o path hdp ht]
      simp [lastStatus, statusWrites, failWrite]
  · intro msg hd ht0 he
    rcases hdp : o.downloadResult with - | path
    · exact absurd hdp hd
    · rw [processItem_extract_raised cfg it o path t msg hdp ht ht0 he]
      simp [lastStatus, statusWrites, failWrite]

/-- C1 witness: with the hosted strategy returning "hello", a download
failure ends with a failed "Download failed" status and the one-item
batch still finishes. -/
theorem per_item_failure_isolation_witness :
    lastStatus (processItem ⟨true, false⟩
        ⟨cs "https://x.com/status/9", cs "twitter", cs "9"⟩
        ⟨none, some (cs "hello"), none, ExtractOutcome.success⟩).1
      = some (cs "failed", some (cs "Download failed")) ∧
    (runBatch ⟨true, false⟩
        [(⟨cs "https://x.com/status/9", cs "twitter", cs "9"⟩,
          ⟨none, some (cs "hello"), none, ExtractOutcome.success⟩)]).2
      = BatchOutcome.finished := by
  have h := per_item_failure_isolation ⟨true, false⟩
      ⟨cs "https://x.com/status/9", cs "twitter", cs "9"⟩
      ⟨none, some (cs "hello"), none, ExtractOutcome.success⟩ [] (cs "hello")
      (by decide)
  exact ⟨h.2.2.1 rfl, by rw [h.2.1]; rfl⟩

/-- C2 counterexample: on an item where download, transcription and
extraction all succeed, the pipeline's only status write is the
initial "transcribing" — no terminal "done" is ever written, so the
last status written is not terminal. -/
theorem success_leaves_transcribing_cex :
    (processItem ⟨true, true⟩
        ⟨cs "https://youtu.be/abcdefghijk", cs "youtube", cs "abcdefghijk"⟩
        ⟨some (cs "/tmp/audio.m4a"), some (cs "great strategy"),
         some (cs "great strategy"), ExtractOutcome.success⟩).2
      = ItemOutcome.completed ∧
    statusWrites (processItem ⟨true, true⟩
        ⟨cs "https://youtu.be/abcdefghijk", cs "youtube", cs "abcdefghijk"⟩
        ⟨some (cs "/tmp/audio.m4a"), some (cs "great strategy"),
         some (cs "great strategy"), ExtractOutcome.success⟩).1
      = [(cs "transcribing", none)] ∧
    lastStatus (processItem ⟨true, true⟩
        ⟨cs "https://youtu.be/abcdefghijk", cs "youtube", cs "abcdefghijk"⟩
        ⟨some (cs "/tmp/audio.m4a"), some (cs "great strategy"),
         some (cs "great strategy"), ExtractOutcome.success⟩).1
      = some (cs "transcribing", none) := by
  exact ⟨by decide, by decide, by decide⟩

/-- C2 amended: every processed item first writes "transcribing"; when
download, transcript non-emptiness or extraction fails (transcription
itself not raising), the last status written is "failed"; when all
succeed the pipeline writes no further status, so the last status
written remains "transcribing" — never "done". -/
theorem item_status_lifecycle (cfg : Config) (it : BatchItem) (o : ItemOracle)
    (t : List Char) (ht : transcribeStep cfg o = TranscribeStep.text t) :
    (statusWrites (processItem cfg it o).1).head? =
      some (cs "transcribing", none) ∧
    (o.downloadResult = none →
      lastStatus (processItem cfg it o).1 =
        some (cs "failed", some (cs "Download failed"))) ∧
    (o.downloadResult ≠ none → t = [] →
      lastStatus (processItem cfg it o).1 =
        some (cs "failed", some (cs "Empty transcript"))) ∧
    (∀ msg, o.downloadResult ≠ none → t ≠ [] →
      o.extractOutcome = ExtractOutcome.raised msg →
      lastStatus (processItem cfg it o).1 = some (cs "failed", some msg)) ∧
    (o.downloadResult ≠ none → t ≠ [] →
      o.extractOutcome = ExtractOutcome.success →
      statusWrites (processItem cfg it o).1 = [(cs "transcribing", none)]) := by
  refine ⟨?_, ?_, ?_, ?_, ?_⟩
  · rcases hd : o.downloadResult with - | path
    · rw [processItem_download_fail cfg it o hd]
      simp [statusWrites]
    · by_cases ht0 : t = []
      · subst ht0
        rw [processItem_empty_transcript cfg it o path hd ht]
        simp [statusWrites]
      · rcases he : o.extractOutcome with - | msg
        · rw [processItem_success cfg it o path t hd ht ht0 he]
          simp [statusWrites]
        · rw [processItem_extract_raised cfg it o path t msg hd ht ht0 he]
          simp [statusWrites]
  · intro hd
    rw [processItem_download_fail cfg it o hd]
    simp [lastStatus, statusWrites, failWrite]
  · intro hd ht0
    rcases hdp : o.downloadResult with - | path
    · exact absurd hdp hd
    · subst ht0
      rw [processItem_empty_transcript cfg it o path hdp ht]
      simp [lastStatus, statusWrites, failWrite]
  · intro msg hd ht0 he
    rcases hdp : o.downloadResult with - | path
    · exact absurd hdp hd
    · rw [processItem_extract_raised cfg it o path t msg hdp ht ht0 he]
      simp [lastStatus, statusWrites, failWrite]
  · intro hd ht0 he
    rcases hdp : o.downloadResult with - | path
    · exact absurd hdp hd
    · rw [processItem_success cfg it o path t hdp ht ht0 he]
      simp [statusWrites]

/-- C2 witness: on a fully successful local-strategy item the first
status written is "transcribing" and it is the only one. -/
theorem item_status_lifecycle_witness :
    (statusWrites (processItem ⟨false, true⟩
        ⟨cs "https://instagram.com/u/reel/AB", cs "instagram", cs "AB"⟩
        ⟨some (cs "/tmp/audio.webm"), none, some (cs "buy low"),
         ExtractOutcome.success⟩).1).head? = some (cs "transcribing", none) ∧
    statusWrites (processItem ⟨false, true⟩
        ⟨cs "https://instagram.com/u/reel/AB", cs "instagram", cs "AB"⟩
        ⟨some (cs "/tmp/audio.webm"), none, some (cs "buy low"),
         ExtractOutcome.success⟩).1 = [(cs "transcribing", none)] := by
  have h := item_status_lifecycle ⟨false, true⟩
      ⟨cs "https://instagram.com/u/reel/AB", cs "instagram", cs "AB"⟩
      ⟨some (cs "/tmp/audio.webm"), none, some (cs "buy low"),
       ExtractOutcome.success⟩ (cs "buy low") (by decide)
  exact ⟨h.1, h.2.2.2.2 (by decide) (by decide) rfl⟩

/-- C3 counterexample: with no hosted credential and no local
dependency, the missing-strategy exit happens inside the first
transcribe call — after the first item's "transcribing" status write
and audio download — refuting the claim that the process terminates
before any status write or download is performed. -/
theorem fatal_config_after_first_download_cex :
    runBatch ⟨false, false⟩
      [(⟨cs "https://youtu.be/abcdefghijk", cs "youtube", cs "abcdefghijk"⟩,
        ⟨some (cs "/tmp/audio.m4a"), none, none, ExtractOutcome.success⟩)] =
      ([Event.statusWrite (cs "abcdefghijk") (cs "youtube") (cs "transcribing") none,
        Event.downloadCall (cs "https://youtu.be/abcdefghijk"),
        Event.transcribeCall (cs "/tmp/audio.m4a")], BatchOutcome.exitedFatal) ∧
    statusWrites (runBatch ⟨false, false⟩
      [(⟨cs "https://youtu.be/abcdefghijk", cs "youtube", cs "abcdefghijk"⟩,
        ⟨some (cs "/tmp/audio.m4a"), none, none, ExtractOutcome.success⟩)]).1
      ≠ [] := by
  exact ⟨by decide, by decide⟩

/-- C3 amended: with neither transcription strategy available, the
process does exit fatally, but only at the first transcription
attempt: the first item with a successful download has already written
"transcribing" and downloaded audio when the process terminates,
remaining items are never processed, and no extraction is ever
submitted under this configuration. -/
theorem fatal_config_at_first_transcription (it : BatchItem) (o : ItemOracle)
    (rest : List (BatchItem × ItemOracle)) (p : List Char)
    (hdl : o.downloadResult = some p) :
    runBatch ⟨false, false⟩ ((it, o) :: rest) =
      ([Event.statusWrite it.video_id it.platform (cs "transcribing") none,
        Event.downloadCall it.url, Event.transcribeCall p],
       BatchOutcome.exitedFatal) ∧
    (∀ (batch : List (BatchItem × ItemOracle)) (v pl tr : List Char)
        (ru cu : Option (List Char)),
      Event.extractCall v pl tr ru cu ∉ (runBatch ⟨false, false⟩ batch).1) := by
  constructor
  · have hts : transcribeStep ⟨false, false⟩ o = TranscribeStep.fatalExit := rfl
    simp [runBatch, processItem, hdl, hts]
  · intro batch
    induction batch with
    | nil =>
      intro v pl tr ru cu h
      simp [runBatch] at h
    | cons x rest2 ih =>
      rcases x with ⟨it2, o2⟩
      intro v pl tr ru cu h
      rcases hdl2 : o2.downloadResult with - | p2
      · have heq := processItem_download_fail ⟨false, false⟩ it2 o2 hdl2
        have hrb := runBatch_cons_completed ⟨false, false⟩ it2 o2 rest2
          (by rw [heq])
        rw [hrb] at h
        simp only [List.mem_append] at h
        rcases h with h | h
        · rw [heq] at h
          simp [failWrite] at h
        · exact ih v pl tr ru cu h
      · have hts2 : transcribeStep ⟨false, false⟩ o2 = TranscribeStep.fatalExit := rfl
        simp [runBatch, processItem, hdl2, hts2] at h

/-- C3 witness: concrete instance of the fatal exit after the first
item's status write and download, with no extraction submitted. -/
theorem fatal_config_at_first_transcription_witness :
    runBatch ⟨false, false⟩
      [(⟨cs "u", cs "youtube", cs "v"⟩,
        ⟨some (cs "/tmp/a"), none, none, ExtractOutcome.success⟩)] =
      ([Event.statusWrite (cs "v") (cs "youtube") (cs "transcribing") none,
        Event.downloadCall (cs "u"), Event.transcribeCall (cs "/tmp/a")],
       BatchOutcome.exitedFatal) ∧
    Event.extractCall (cs "v") (cs "youtube") (cs "t") none none ∉
      (runBatch ⟨false, false⟩
        [(⟨cs "u", cs "youtube", cs "v"⟩,
          ⟨some (cs "/tmp/a"), none, none, ExtractOutcome.success⟩)]).1 := by
  have h := fatal_config_at_first_transcription
    ⟨cs "u", cs "youtube", cs "v"⟩
    ⟨some (cs "/tmp/a"), none, none, ExtractOutcome.success⟩ [] (cs "/tmp/a") rfl
  exact ⟨h.1, h.2 [(⟨cs "u", cs "youtube", cs "v"⟩,
    ⟨some (cs "/tmp/a"), none, none, ExtractOutcome.success⟩)]
    (cs "v") (cs "youtube") (cs "t") none none⟩

theorem stripPreCI_decomp : ∀ (p s r : List Char), stripPreCI p s = some r →
    ∃ pre, s = pre ++ r := by
  intro p
  induction p with
  | nil =>
    intro s r h
    simp only [stripPreCI] at h
    cases h
    exact ⟨[], rfl⟩
  | cons a as ih =>
    intro s r h
    cases s with
    | nil => simp [stripPreCI] at h
    | cons c rest =>
      simp only [stripPreCI] at h
      by_cases hc : c.toLower = a
      · rw [if_pos hc] at h
        obtain ⟨pre, hpre⟩ := ih rest r h
        exact ⟨c :: pre, by simp [hpre]⟩
      · rw [if_neg hc] at h
        cases h

theorem ytTail_spec (s v : List Char) (h : ytTail s = some v) :
    v.length = 11 ∧ v.all idChar = true ∧ ∃ post, s = v ++ post := by
  simp only [ytTail] at h
  split at h
  · cases h
    rename_i hc
    exact ⟨hc.1, hc.2, s.drop 11, (List.take_append_drop 11 s).symm⟩
  · cases h

theorem ytTryAt_spec (s v : List Char) (h : ytTryAt s = some v) :
    v.length = 11 ∧ v.all idChar = true ∧ ∃ pre post, s = pre ++ v ++ post := by
  unfold ytTryAt at h
  rcases h1 : stripPreCI (cs "youtube.com/watch?v=") s with - | rest
  · simp only [h1] at h
    rcases h2 : stripPreCI (cs "youtu.be/") s with - | rest2
    · simp only [h2] at h
      cases h
    · simp only [h2] at h
      obtain ⟨hl, ha, post, hpost⟩ := ytTail_spec rest2 v h
      obtain ⟨pre, hpre⟩ := stripPreCI_decomp _ s rest2 h2
      exact ⟨hl, ha, pre, post, by rw [hpre, hpost]; simp⟩
  · simp only [h1] at h
    obtain ⟨hl, ha, post, hpost⟩ := ytTail_spec rest v h
    obtain ⟨pre, hpre⟩ := stripPreCI_decomp _ s rest h1
    exact ⟨hl, ha, pre, post, by rw [hpre, hpost]; simp⟩

theorem ytSearch_spec : ∀ (s v : List Char), ytSearch s = some v →
    v.length = 11 ∧ v.all idChar = true ∧ ∃ pre post, s = pre ++ v ++ post := by
  intro s
  induction s with
  | nil => intro v h; simp [ytSearch] at h
  | cons c rest ih =>
    intro v h
    simp only [ytSearch] at h
    rcases h1 : ytTryAt (c :: rest) with - | r
    · simp only [h1] at h
      obtain ⟨hl, ha, pre, post, hdec⟩ := ih v h
      exact ⟨hl, ha, c :: pre, post, by simp [hdec]⟩
    · simp only [h1] at h
      cases h
      exact ytTryAt_spec (c :: rest) v h1

theorem reelTail_ne (s v : List Char) (h : reelTail s = some v) : v ≠ [] := by
  unfold reelTail at h
  rcases h1 : stripPreCI (cs "reel/") s with - | rest
  · simp only [h1] at h
    cases h
  · simp only [h1] at h
    split at h
    · cases h
    · rename_i hne
      cases h
      exact hne

theorem igTryAt_vid_ne (s : List Char) (hnd : Option (List Char)) (v : List Char)
    (h : igTryAt s = some (hnd, v)) : v ≠ [] := by
  unfold igTryAt at h
  rcases h1 : stripPreCI (cs "instagram.com/") s with - | rest
  · simp only [h1] at h
    cases h
  · simp only [h1] at h
    rcases h2 : segSlash rest with - | ⟨seg, rest2⟩
    · simp only [h2] at h
      rcases h3 : reelTail rest with - | vid
      · simp only [h3] at h
        cases h
      · simp only [h3] at h
        cases h
        exact reelTail_ne rest v h3
    · simp only [h2] at h
      rcases h3 : reelTail rest2 with - | vid
      · simp only [h3] at h
        rcases h4 : reelTail rest with - | vid2
        · simp only [h4] at h
          cases h
        · simp only [h4] at h
          cases h
          exact reelTail_ne rest v h4
      · simp only [h3] at h
        cases h
        exact reelTail_ne rest2 v h3

theorem igSearch_vid_ne : ∀ (s : List Char) (hnd : Option (List Char)) (v : List Char),
    igSearch s = some (hnd, v) → v ≠ [] := by
  intro s
  induction s with
  | nil => intro hnd v h; simp [igSearch] at h
  | cons c rest ih =>
    intro hnd v h
    simp only [igSearch] at h
    rcases h1 : igTryAt (c :: rest) with - | r
    · simp only [h1] at h
      exact ih hnd v h
    · simp only [h1] at h
      rcases r with ⟨hnd2, v2⟩
      cases h
      exact igTryAt_vid_ne (c :: rest) hnd v h1

theorem statusTail_ne (s v : List Char) (h : statusTail s = some v) : v ≠ [] := by
  unfold statusTail at h
  rcases h1 : stripPreCI (cs "status/") s with - | rest
  · simp only [h1] at h
    cases h
  · simp only [h1] at h
    split at h
    · cases h
    · rename_i hne
      cases h
      exact hne

theorem twAfterHost_ne (s v : List Char) (h : twAfterHost s = some v) : v ≠ [] := by
  unfold twAfterHost at h
  rcases h1 : segSlash s with - | ⟨seg, rest2⟩
  · simp only [h1] at h
    exact statusTail_ne s v h
  · simp only [h1] at h
    rcases h2 : statusTail rest2 with - | d
    · simp only [h2] at h
      exact statusTail_ne s v h
    · simp only [h2] at h
      cases h
      exact statusTail_ne rest2 v h2

theorem twTryAt_ne (s v : List Char) (h : twTryAt s = some v) : v ≠ [] := by
  unfold twTryAt at h
  rcases h1 : stripPreCI (cs "twitter.com/") s with - | rest
  · simp only [h1] at h
    rcases h2 : stripPreCI (cs "x.com/") s with - | rest2
    · simp only [h2] at h
      cases h
    · simp only [h2] at h
      exact twAfterHost_ne rest2 v h
  · simp only [h1] at h
    exact twAfterHost_ne rest v h

theorem twSearch_vid_ne : ∀ (s v : List Char), twSearch s = some v → v ≠ [] := by
  intro s
  induction s with
  | nil => intro v h; simp [twSearch] at h
  | cons c rest ih =>
    intro v h
    simp only [twSearch] at h
    rcases h1 : twTryAt (c :: rest) with - | r
    · simp only [h1] at h
      exact ih v h
    · simp only [h1] at h
      cases h
      exact twTryAt_ne (c :: rest) v h1

theorem rev_strip_decomp (t : List Char) (p : Char → Bool) :
    t = (t.reverse.dropWhile p).reverse ++ (t.reverse.takeWhile p).reverse := by
  conv_lhs => rw [← List.reverse_reverse t,
    ← List.takeWhile_append_dropWhile p t.reverse]
  rw [List.reverse_append]

theorem pyStrip_decomp (s : List Char) : ∃ a b, s = a ++ pyStrip s ++ b := by
  refine ⟨s.takeWhile isSpaceChar,
    ((s.dropWhile isSpaceChar).reverse.takeWhile isSpaceChar).reverse, ?_⟩
  unfold pyStrip
  conv_lhs => rw [← List.takeWhile_append_dropWhile isSpaceChar s]
  rw [List.append_assoc]
  congr 1
  exact rev_strip_decomp (s.dropWhile isSpaceChar) isSpaceChar

/-- C6: every WorkItem the classifier produces has a non-empty
video_id and one of the three known platforms; a youtube WorkItem's id
is exactly 11 characters from the letters, digits, dash, underscore
alphabet and occurs verbatim in the input URL; when none of the three
patterns matches, no WorkItem is produced. -/
theorem parse_url_work_item_invariants (url : List Char) :
    (∀ w, parse_url url = some w →
      w.video_id ≠ [] ∧
      (w.platform = cs "instagram" ∨ w.platform = cs "twitter" ∨
        w.platform = cs "youtube") ∧
      (w.platform = cs "youtube" →
        w.video_id.length = 11 ∧ w.video_id.all idChar = true ∧
        ∃ pre post, url = pre ++ w.video_id ++ post)) ∧
    (igSearch (pyStrip url) = none → twSearch (pyStrip url) = none →
      ytSearch (pyStrip url) = none → parse_url url = none) := by
  constructor
  · intro w h
    unfold parse_url at h
    rcases hig : igSearch (pyStrip url) with - | r
    · simp only [hig] at h
      rcases htw : twSearch (pyStrip url) with - | vid
      · simp only [htw] at h
        rcases hyt : ytSearch (pyStrip url) with - | vid
        · simp only [hyt] at h
          cases h
        · simp only [hyt] at h
          cases h
          obtain ⟨hl, ha, pre, post, hdec⟩ := ytSearch_spec (pyStrip url) vid hyt
          obtain ⟨a, b, hab⟩ := pyStrip_decomp url
          refine ⟨?_, Or.inr (Or.inr rfl),
            fun _ => ⟨hl, ha, a ++ pre, post ++ b, ?_⟩⟩
          · intro hv
            have hv2 : vid = [] := hv
            rw [hv2] at hl
            simp at hl
          · calc url = a ++ pyStrip url ++ b := hab
              _ = a ++ (pre ++ vid ++ post) ++ b := by rw [hdec]
              _ = a ++ pre ++ vid ++ (post ++ b) := by simp
      · simp only [htw] at h
        cases h
        exact ⟨twSearch_vid_ne _ _ htw, Or.inr (Or.inl rfl),
          fun hyt => absurd (show cs "twitter" = cs "youtube" from hyt) (by decide)⟩
    · simp only [hig] at h
      rcases r with ⟨hnd, vid⟩
      cases h
      exact ⟨igSearch_vid_ne _ _ _ hig, Or.inl rfl,
        fun hyt => absurd (show cs "instagram" = cs "youtube" from hyt) (by decide)⟩
  · intro h1 h2 h3
    unfold parse_url
    simp only [h1, h2, h3]

/-- C6 witness: the classifier on a concrete youtu.be URL yields
platform youtube with the 11-character id taken verbatim. -/
theorem parse_url_work_item_invariants_witness :
    parse_url (cs "https://youtu.be/dQw4w9WgXcQ") =
      some ⟨cs "youtube", cs "dQw4w9WgXcQ", none⟩ ∧
    cs "dQw4w9WgXcQ" ≠ [] ∧
    (cs "dQw4w9WgXcQ").length = 11 ∧
    (cs "dQw4w9WgXcQ").all idChar = true ∧
    (∃ pre post, cs "https://youtu.be/dQw4w9WgXcQ" =
      pre ++ cs "dQw4w9WgXcQ" ++ post) := by
  have hp : parse_url (cs "https://youtu.be/dQw4w9WgXcQ") =
      some ⟨cs "youtube", cs "dQw4w9WgXcQ", none⟩ := by decide
  have h := (parse_url_work_item_invariants (cs "https://youtu.be/dQw4w9WgXcQ")).1
      ⟨cs "youtube", cs "dQw4w9WgXcQ", none⟩ hp
  exact ⟨hp, h.1, (h.2.2 rfl).1, (h.2.2 rfl).2.1, (h.2.2 rfl).2.2⟩
